import Mathlib

/-!
Verification of the message-analyser ingestion pipeline (`messageparser.py`).

We shallowly embed the ingestion-and-normalization core of the analyser:
Python strings are modelled as lists of code points (`List Nat`, so that
lone UTF-16 surrogates are representable, as they are in Python `str`),
rendered timestamp strings as Lean `String`s, JSON message objects as a
structure of optional fields, and the stateful per-file loop of
`load_messages` as an explicit fold threading the `used_app` variable
(`Option String`, `none` modelling the unbound state).  Fallible Python
operations (KeyError, NameError, UnicodeDecodeError, ValueError) are
modelled with `Except String`.
-/

namespace MsgAnalyser

/-! ## Decimal rendering (CPython `%d` / `%02d` / `%2d` / `%04d`) -/

/-- The character for a single decimal digit. -/
def digitChar (d : Nat) : Char := Char.ofNat (48 + d)

/-- Little-endian base-10 digits of `n`, with explicit fuel so that the
recursion is structural (the fuel `n` itself always suffices). -/
def natDigitsRev : Nat → Nat → List Nat
  | 0, _ => []
  | _ + 1, 0 => []
  | fuel + 1, n + 1 => (n + 1) % 10 :: natDigitsRev fuel ((n + 1) / 10)

/-- Decimal representation of a natural number, as a list of digit chars. -/
def natReprL (n : Nat) : List Char :=
  if n = 0 then ['0'] else ((natDigitsRev n n).map digitChar).reverse

theorem natDigitsRev_mem {fuel n d : Nat} (hd : d ∈ natDigitsRev fuel n) :
    d < 10 := by
  induction fuel generalizing n with
  | zero => simp [natDigitsRev] at hd
  | succ fuel ih =>
    cases n with
    | zero => simp [natDigitsRev] at hd
    | succ k =>
      rcases List.mem_cons.mp hd with rfl | hd
      · exact Nat.mod_lt _ (by norm_num)
      · exact ih hd

theorem natDigitsRev_ne_nil {fuel n : Nat} (hf : n ≤ fuel + 1) (hn : n ≠ 0) :
    natDigitsRev (fuel + 1) n ≠ [] := by
  cases n with
  | zero => exact absurd rfl hn
  | succ k => simp [natDigitsRev]

theorem natDigitsRev_length_le {k : Nat} :
    ∀ {fuel n : Nat}, n ≤ fuel → n < 10 ^ k → (natDigitsRev fuel n).length ≤ k := by
  induction k with
  | zero => intro fuel n hf hn; interval_cases n; cases fuel <;> simp [natDigitsRev]
  | succ k ih =>
    intro fuel n hf hn
    cases fuel with
    | zero => simp [natDigitsRev]
    | succ fuel =>
      cases n with
      | zero => simp [natDigitsRev]
      | succ m =>
        rw [natDigitsRev, List.length_cons]
        have h10 : (10 : Nat) ^ (k + 1) = 10 * 10 ^ k := by ring
        have hdiv : (m + 1) / 10 < 10 ^ k := by omega
        have hfl : (m + 1) / 10 ≤ fuel := by omega
        have := ih hfl hdiv
        omega

/-- Left-pad with `'0'` to width `w` (CPython `%0wd` for nonnegative input). -/
def padZeros (w : Nat) (s : List Char) : List Char :=
  List.replicate (w - s.length) '0' ++ s

/-- CPython `%02d` on a natural number. -/
def pad2 (n : Nat) : List Char := padZeros 2 (natReprL n)

/-- CPython `%2d`: space-padded to width 2. -/
def dayField (d : Nat) : List Char :=
  if d < 10 then ' ' :: natReprL d else natReprL d

/-- CPython `%04d` (the year field of `datetime.ctime`). -/
def yearField (y : Int) : List Char :=
  if y < 0 then '-' :: padZeros 3 (natReprL (-y).toNat) else padZeros 4 (natReprL y.toNat)

theorem digitChar_props {d : Nat} (hd : d < 10) :
    (digitChar d).isWhitespace = false ∧ digitChar d ≠ ':' ∧
    digitChar d ≠ '.' ∧ (digitChar d).isDigit = true := by
  interval_cases d <;> decide

theorem natReprL_ne_nil (n : Nat) : natReprL n ≠ [] := by
  unfold natReprL
  split
  · simp
  · next h =>
    simp only [ne_eq, List.reverse_eq_nil_iff, List.map_eq_nil_iff]
    cases n with
    | zero => exact absurd rfl h
    | succ k => simp [natDigitsRev]

theorem natReprL_mem {n : Nat} {c : Char} (hc : c ∈ natReprL n) :
    ∃ d, d < 10 ∧ c = digitChar d := by
  unfold natReprL at hc
  split at hc
  · refine ⟨0, by norm_num, ?_⟩
    simpa using List.mem_singleton.mp hc
  · rw [List.mem_reverse, List.mem_map] at hc
    obtain ⟨d, hd, rfl⟩ := hc
    exact ⟨d, natDigitsRev_mem hd, rfl⟩

theorem natReprL_length_le {n k : Nat} (hk : 1 ≤ k) (hn : n < 10 ^ k) :
    (natReprL n).length ≤ k := by
  unfold natReprL
  split
  · simpa using hk
  · simp only [List.length_reverse, List.length_map]
    exact natDigitsRev_length_le (le_refl n) hn

theorem natReprL_good {n : Nat} {c : Char} (hc : c ∈ natReprL n) :
    c.isWhitespace = false ∧ c ≠ ':' ∧ c ≠ '.' ∧ c.isDigit = true := by
  obtain ⟨d, hd, rfl⟩ := natReprL_mem hc
  exact digitChar_props hd

theorem padZeros_good {w : Nat} {s : List Char}
    (hs : ∀ c ∈ s, c.isWhitespace = false ∧ c ≠ ':' ∧ c ≠ '.' ∧ c.isDigit = true) :
    ∀ c ∈ padZeros w s,
      c.isWhitespace = false ∧ c ≠ ':' ∧ c ≠ '.' ∧ c.isDigit = true := by
  intro c hc
  rw [padZeros, List.mem_append] at hc
  rcases hc with hc | hc
  · have : c = '0' := List.eq_of_mem_replicate hc
    subst this; decide
  · exact hs c hc

theorem pad2_good {n : Nat} :
    ∀ c ∈ pad2 n, c.isWhitespace = false ∧ c ≠ ':' ∧ c ≠ '.' ∧ c.isDigit = true :=
  padZeros_good (fun _ hc => natReprL_good hc)

theorem pad2_ne_nil (n : Nat) : pad2 n ≠ [] := by
  unfold pad2 padZeros
  intro h
  exact natReprL_ne_nil n (List.append_eq_nil.mp h).2

theorem padZeros_length {w : Nat} {s : List Char} (h : s.length ≤ w) :
    (padZeros w s).length = w := by
  simp [padZeros]
  omega

/-! ## Python `str.split(sep)` (keeps empty fields) -/

/-- Python `s.split(sep)` for a single-character separator: splits at every
occurrence of `sep`, keeping empty fields; `"".split(sep) == [""]`. -/
def pySplit (sep : Char) : List Char → List (List Char)
  | [] => [[]]
  | c :: cs =>
    if c = sep then [] :: pySplit sep cs
    else
      match pySplit sep cs with
      | [] => [[c]]
      | t :: ts => (c :: t) :: ts

theorem pySplit_ne_nil (sep : Char) (l : List Char) : pySplit sep l ≠ [] := by
  induction l with
  | nil => simp [pySplit]
  | cons c cs ih =>
    rw [pySplit]
    split
    · simp
    · split
      · simp
      · simp

/-- Splitting a separator-free list yields the list itself as single field. -/
theorem pySplit_sepFree {sep : Char} {t : List Char} (h : ∀ c ∈ t, c ≠ sep) :
    pySplit sep t = [t] := by
  induction t with
  | nil => rfl
  | cons c cs ih =>
    rw [pySplit, if_neg (h c (by simp))]
    rw [ih (fun x hx => h x (by simp [hx]))]

/-- The first separator splits off the separator-free head segment. -/
theorem pySplit_append {sep : Char} {t rest : List Char} (h : ∀ c ∈ t, c ≠ sep) :
    pySplit sep (t ++ sep :: rest) = t :: pySplit sep rest := by
  induction t with
  | nil => simp [pySplit]
  | cons c cs ih =>
    rw [List.cons_append, pySplit, if_neg (h c (by simp))]
    rw [ih (fun x hx => h x (by simp [hx]))]

/-! ## Python `str.split()` (whitespace runs, drops empties) -/

/-- Worker for Python's no-argument `str.split`: `acc` holds the (reversed)
current token. -/
def pySplitWsAux : List Char → List Char → List (List Char)
  | [], acc => if acc.isEmpty then [] else [acc.reverse]
  | c :: cs, acc =>
    if c.isWhitespace then
      if acc.isEmpty then pySplitWsAux cs []
      else acc.reverse :: pySplitWsAux cs []
    else pySplitWsAux cs (c :: acc)

/-- Python `s.split()`: splits on runs of whitespace, no empty fields. -/
def pySplitWs (l : List Char) : List (List Char) := pySplitWsAux l []

theorem pySplitWsAux_token {t : List Char} (h : ∀ c ∈ t, c.isWhitespace = false) :
    ∀ rest acc, pySplitWsAux (t ++ rest) acc = pySplitWsAux rest (t.reverse ++ acc) := by
  induction t with
  | nil => intro rest acc; simp
  | cons c cs ih =>
    intro rest acc
    rw [List.cons_append, pySplitWsAux, if_neg (by simp [h c (by simp)])]
    rw [ih (fun x hx => h x (by simp [hx])) rest (c :: acc)]
    simp

theorem pySplitWsAux_ws_nil {rest : List Char} :
    pySplitWsAux (' ' :: rest) [] = pySplitWsAux rest [] := by
  rw [pySplitWsAux]; simp

theorem pySplitWsAux_ws_flush {acc rest : List Char} (h : acc ≠ []) :
    pySplitWsAux (' ' :: rest) acc = acc.reverse :: pySplitWsAux rest [] := by
  rw [pySplitWsAux]
  simp [List.isEmpty_iff, h]

theorem pySplitWsAux_nil_flush {acc : List Char} (h : acc ≠ []) :
    pySplitWsAux [] acc = [acc.reverse] := by
  rw [pySplitWsAux]
  simp [List.isEmpty_iff, h]

/-! ## Civil-calendar arithmetic and `datetime.ctime` rendering

The local system timezone is modelled as a fixed offset (in seconds) from
UTC, i.e. a zone without daylight-saving transitions; `datetime.ctime`
renders a wall-clock instant as `"Www Mmm %2d %02d:%02d:%02d %04d"`. -/

/-- Days since 1970-01-01 of the civil date `(y, m, d)` (proleptic
Gregorian), as computed by CPython's date arithmetic. -/
def daysFromCivil (y : Int) (m d : Nat) : Int :=
  let y' : Int := if m ≤ 2 then y - 1 else y
  let era : Int := y'/400
  let yoe : Nat := (y' - era * 400).toNat
  let mp : Nat := if 2 < m then m - 3 else m + 9
  let doy : Nat := (153 * mp + 2) / 5 + d - 1
  let doe : Nat := yoe * 365 + yoe / 4 - yoe / 100 + doy
  era * 146097 + (doe : Int) - 719468

/-- Day-of-era (within a 400-year cycle) of a day count since the epoch. -/
def cdDoe (z : Int) : Nat := ((z + 719468)%146097).toNat

/-- Year-of-era of a day count since the epoch. -/
def cdYoe (z : Int) : Nat :=
  (cdDoe z - cdDoe z / 1460 + cdDoe z / 36524 - cdDoe z / 146096) / 365

/-- Day-of-(March-based)-year of a day count since the epoch. -/
def cdDoy (z : Int) : Nat :=
  cdDoe z - (365 * cdYoe z + cdYoe z / 4 - cdYoe z / 100)

/-- March-based month index of a day count since the epoch. -/
def cdMp (z : Int) : Nat := (5 * cdDoy z + 2) / 153

/-- Civil date `(year, month, day)` of a count of days since 1970-01-01. -/
def civilFromDays (z : Int) : Int × Nat × Nat :=
  let era : Int := (z + 719468)/146097
  let y : Int := era * 400 + cdYoe z
  let d : Nat := cdDoy z - (153 * cdMp z + 2) / 5 + 1
  let m : Nat := if cdMp z < 10 then cdMp z + 3 else cdMp z - 9
  (if cdMp z < 10 then y else y + 1, m, d)

def weekdayNames : List (List Char) :=
  [['M','o','n'], ['T','u','e'], ['W','e','d'], ['T','h','u'],
   ['F','r','i'], ['S','a','t'], ['S','u','n']]

def monthNames : List (List Char) :=
  [['J','a','n'], ['F','e','b'], ['M','a','r'], ['A','p','r'],
   ['M','a','y'], ['J','u','n'], ['J','u','l'], ['A','u','g'],
   ['S','e','p'], ['O','c','t'], ['N','o','v'], ['D','e','c']]

/-- Weekday abbreviation of a count of days since the epoch (a Thursday). -/
def weekdayAbbrev (z : Int) : List Char :=
  weekdayNames.getD ((z + 3)%7).toNat []

/-- Month abbreviation for a 1-based month number. -/
def monthAbbrev (m : Nat) : List Char := monthNames.getD (m - 1) []

/-- The `HH:MM:SS` field of `ctime`, from a second-of-day count. -/
def timeField (sod : Nat) : List Char :=
  pad2 (sod / 3600) ++ (':' :: (pad2 (sod % 3600 / 60) ++ (':' :: pad2 (sod % 60))))

/-- Weekday token of the rendered local wall-clock time `t` (in seconds). -/
def ctWeekday (t : Int) : List Char := weekdayAbbrev (t/86400)

/-- Month token of the rendered local wall-clock time `t`. -/
def ctMonth (t : Int) : List Char :=
  monthAbbrev (civilFromDays (t/86400)).2.1

/-- Day-of-month token (no padding) of the rendered local wall-clock time. -/
def ctDay (t : Int) : List Char := natReprL (civilFromDays (t/86400)).2.2

/-- The `HH:MM:SS` token of the rendered local wall-clock time `t`. -/
def ctTime (t : Int) : List Char := timeField (t%86400).toNat

/-- Year token of the rendered local wall-clock time `t`. -/
def ctYear (t : Int) : List Char := yearField (civilFromDays (t/86400)).1

/-- Character list of `datetime.ctime` applied to the local wall-clock time
`t` seconds after the epoch (negative for before). -/
def ctChars (t : Int) : List Char :=
  ctWeekday t ++ ' ' ::
    (ctMonth t ++ ' ' ::
      ((if (civilFromDays (t/86400)).2.2 < 10 then [' '] else []) ++
        (ctDay t ++ ' ' :: (ctTime t ++ ' ' :: ctYear t))))

/-- Rendering of `datetime.ctime` at the local wall-clock time `t` (seconds). -/
def ctimeOfLocalSecs (t : Int) : String := String.mk (ctChars t)

/-! ## Aggregator key extractions (`Conversation.get_*_frequency`) -/

/-- Extraction `message.time.split(" ")[0]` — the weekday key (source line 52). -/
def weekdayOf (time : String) : String :=
  String.mk ((pySplit ' ' time.data).headD [])

/-- Extraction `message.time.split(":")[0].split(" ")[-1]` — the hour key (line 59). -/
def hourOf (time : String) : String :=
  let p := pySplit ' ' ((pySplit ':' time.data).headD [])
  String.mk (p.getLastD [])

/-- Extraction of the calendar-day key (source line 66): the f-string
joining `t.split()[1]`, `t.split(':')[0].split()[-2]` and `t.split()[-1]`
with single spaces. -/
def dayKeyOf (time : String) : String :=
  let w := pySplitWs time.data
  let mid := pySplitWs ((pySplit ':' time.data).headD [])
  String.mk ((w.getD 1 []) ++ (' ' :: ((mid.getD (mid.length - 2) []) ++
    (' ' :: (w.getD (w.length - 1) [])))))

/-! ## ISO-8601 parsing (`datetime.fromisoformat`, pre-3.11 dialect) -/

/-- Decimal value of a digit character. -/
def dv (c : Char) : Option Nat :=
  if '0' ≤ c ∧ c ≤ '9' then some (c.toNat - 48) else none

def dv2 (a b : Char) : Option Nat := do
  pure ((← dv a) * 10 + (← dv b))

def dv4 (a b c d : Char) : Option Nat := do
  pure (((← dv a) * 10 + (← dv b)) * 100 + ((← dv c) * 10 + (← dv d)))

def isLeap (y : Int) : Bool :=
  (y%4 = 0 ∧ y%100 ≠ 0) ∨ y%400 = 0

def daysInMonth (y : Int) (m : Nat) : Nat :=
  [31, if isLeap y then 29 else 28, 31, 30, 31, 30, 31, 31, 30, 31, 30, 31].getD (m - 1) 0

/-- Parse the leading `YYYY-MM-DD*HH:MM:SS` of an ISO string (the separator
`*` may be any character, as in CPython's `fromisoformat` before 3.11);
returns the naive wall-clock value in seconds and the unconsumed rest. -/
def parseIsoCore : List Char → Option (Int × List Char)
  | y1 :: y2 :: y3 :: y4 :: '-' :: mo1 :: mo2 :: '-' :: d1 :: d2 :: _sep ::
      h1 :: h2 :: ':' :: mi1 :: mi2 :: ':' :: s1 :: s2 :: rest => do
    let y ← dv4 y1 y2 y3 y4
    let mo ← dv2 mo1 mo2
    let d ← dv2 d1 d2
    let h ← dv2 h1 h2
    let mi ← dv2 mi1 mi2
    let s ← dv2 s1 s2
    if 1 ≤ mo ∧ mo ≤ 12 ∧ 1 ≤ d ∧ d ≤ daysInMonth y mo ∧ h ≤ 23 ∧ mi ≤ 59 ∧ s ≤ 59 then
      pure (daysFromCivil y mo d * 86400 + (h * 3600 + mi * 60 + s : Nat), rest)
    else none
  | _ => none

/-- Parse a trailing `±HH:MM` UTC-offset suffix, in seconds. -/
def parseOffsetTail : List Char → Option Int
  | [sgn, o1, o2, ':', o3, o4] => do
    let oh ← dv2 o1 o2
    let om ← dv2 o3 o4
    if (sgn = '+' ∨ sgn = '-') ∧ oh ≤ 23 ∧ om ≤ 59 then
      pure (if sgn = '-' then -((oh * 3600 + om * 60 : Nat) : Int)
            else ((oh * 3600 + om * 60 : Nat) : Int))
    else none
  | _ => none

/-- CPython `datetime.fromisoformat` on a fraction-free string: a naive datetime
is a wall-clock second count with no offset, an aware one carries its
`±HH:MM` offset.  (The pipeline only calls it on the part of the timestamp
before the first `.`, which never contains a fraction.) -/
def fromisoformat (l : List Char) : Option (Int × Option Int) := do
  let (wall, rest) ← parseIsoCore l
  match rest with
  | [] => pure (wall, none)
  | _ => do pure (wall, some (← parseOffsetTail rest))

/-- The Platform B (Discord) timestamp normalization of `load_messages`
(source line 278):
`datetime.fromisoformat(ts.split(".")[0]).astimezone(get_localzone()).ctime()`.
A naive result of `fromisoformat` is interpreted by `astimezone` as already
being local wall-clock time; an aware one is converted to the local zone. -/
def discordCodeTime (localOff : Int) (iso : String) : Option String :=
  match fromisoformat ((pySplit '.' iso.data).headD []) with
  | none => none
  | some (wall, none) => some (ctimeOfLocalSecs wall)
  | some (wall, some off) => some (ctimeOfLocalSecs (wall - off + localOff))

/-- Consume a leading run of decimal digits. -/
def takeDigits : List Char → List Char × List Char
  | [] => ([], [])
  | c :: cs =>
    if '0' ≤ c ∧ c ≤ '9' then
      let (ds, rest) := takeDigits cs
      (c :: ds, rest)
    else ([], c :: cs)

/-- Modelled from the spec (§4.2, Platform B), as the comparison point for
the refinement claim about the Discord timestamp path: "strip sub-second
precision, parse respecting the embedded offset [`±HH:MM`] or `Z`, convert
to local-system-timezone, render with the same fixed string format". -/
def discordTime_spec (localOff : Int) (iso : String) : Option String := do
  let (wall, rest) ← parseIsoCore iso.data
  let rest2 := match rest with
    | '.' :: cs => (takeDigits cs).2
    | _ => rest
  let off ← match rest2 with
    | ['Z'] => pure (0 : Int)
    | _ => parseOffsetTail rest2
  pure (ctimeOfLocalSecs (wall - off + localOff))

/-! ## Text repair (§4.1) -/

/-- Strict UTF-8 decoding of a byte list to code points (CPython's
`bytes.decode("utf8")`): rejects overlong forms, surrogates and values
above `0x10FFFF`. -/
def utf8Decode : List Nat → Option (List Nat)
  | [] => some []
  | b1 :: rest =>
    if b1 ≤ 0x7F then (utf8Decode rest).map (b1 :: ·)
    else if b1 < 0xC2 then none
    else if b1 ≤ 0xDF then
      match rest with
      | b2 :: rest2 =>
        if 0x80 ≤ b2 ∧ b2 ≤ 0xBF then
          (utf8Decode rest2).map (((b1 - 0xC0) * 0x40 + (b2 - 0x80)) :: ·)
        else none
      | [] => none
    else if b1 ≤ 0xEF then
      match rest with
      | b2 :: b3 :: rest3 =>
        let lo2 := if b1 = 0xE0 then 0xA0 else 0x80
        let hi2 := if b1 = 0xED then 0x9F else 0xBF
        if lo2 ≤ b2 ∧ b2 ≤ hi2 ∧ 0x80 ≤ b3 ∧ b3 ≤ 0xBF then
          (utf8Decode rest3).map
            ((((b1 - 0xE0) * 0x40 + (b2 - 0x80)) * 0x40 + (b3 - 0x80)) :: ·)
        else none
      | _ => none
    else if b1 ≤ 0xF4 then
      match rest with
      | b2 :: b3 :: b4 :: rest4 =>
        let lo2 := if b1 = 0xF0 then 0x90 else 0x80
        let hi2 := if b1 = 0xF4 then 0x8F else 0xBF
        if lo2 ≤ b2 ∧ b2 ≤ hi2 ∧ 0x80 ≤ b3 ∧ b3 ≤ 0xBF ∧ 0x80 ≤ b4 ∧ b4 ≤ 0xBF then
          (utf8Decode rest4).map
            (((((b1 - 0xF0) * 0x40 + (b2 - 0x80)) * 0x40 + (b3 - 0x80)) * 0x40
              + (b4 - 0x80)) :: ·)
        else none
      | _ => none
    else none

/-- Platform A text repair: `s.encode("latin1").decode("utf8")` — re-encode
each code point as a single Latin-1 byte (failing above `0xFF`), then decode
the byte string as UTF-8 (source lines 204-205, 251, 275). -/
def latin1Utf8Fix (s : List Nat) : Option (List Nat) :=
  if s.all (· ≤ 0xFF) then utf8Decode s else none

/-- Encoding `s.encode("utf-16", "surrogatepass")` at the code-unit level: BMP code
points (lone surrogates included, thanks to `surrogatepass`) become one
unit, supplementary ones a surrogate pair.  (The byte-order mark that the
byte-level codec adds is consumed again by the paired decode, so it is
dropped from the model.) -/
def utf16Encode : List Nat → List Nat
  | [] => []
  | c :: cs =>
    if c < 0x10000 then c :: utf16Encode cs
    else (0xD800 + (c - 0x10000) / 0x400) :: (0xDC00 + (c - 0x10000) % 0x400) ::
      utf16Encode cs

/-- Strict UTF-16 decoding of code units (`bytes.decode("utf-16")`): a high
surrogate must be followed by a low one, which together yield one
supplementary code point; lone surrogates are a decode error. -/
def utf16Decode : List Nat → Option (List Nat)
  | [] => some []
  | u :: us =>
    if u < 0xD800 ∨ 0xE000 ≤ u then (utf16Decode us).map (u :: ·)
    else if u ≤ 0xDBFF then
      match us with
      | u2 :: us2 =>
        if 0xDC00 ≤ u2 ∧ u2 ≤ 0xDFFF then
          (utf16Decode us2).map
            ((0x10000 + (u - 0xD800) * 0x400 + (u2 - 0xDC00)) :: ·)
        else none
      | [] => none
    else none

/-- Platform B text repair:
`s.encode("utf-16", "surrogatepass").decode("utf-16")` — collapses split
surrogate pairs into proper supplementary code points (source lines 216,
253). -/
def utf16Fix (s : List Nat) : Option (List Nat) :=
  utf16Decode (utf16Encode s)

/-! ## Association lists (Python `dict` with insertion order) -/

/-- Python `d.get(k)` (also deciding `k in d`): first matching key wins. -/
def alookup {κ β : Type} [DecidableEq κ] : List (κ × β) → κ → Option β
  | [], _ => none
  | (k', v) :: t, k => if k = k' then some v else alookup t k

/-- Python `d[k] = v` on a key already present (leaves a missing key alone). -/
def aupdate {κ β : Type} [DecidableEq κ] : List (κ × β) → κ → β → List (κ × β)
  | [], _, _ => []
  | (k', v') :: t, k, v => if k = k' then (k', v) :: t else (k', v') :: aupdate t k v

/-- Python `if k not in d: d[k] = 0` followed by `d[k] += 1` (lines 82-84). -/
def abump {κ : Type} [DecidableEq κ] (l : List (κ × Nat)) (k : κ) : List (κ × Nat) :=
  match alookup l k with
  | none => l ++ [(k, 1)]
  | some n => aupdate l k (n + 1)

/-! ## Emoticon-to-emoji rewrite (`convert_symbols_to_emojis`, lines 226-232) -/

def convertable_emojis : List (String × String) :=
  [(":)", "🙂"), (":D", "😀"), ("^_^", "😊"), ("O:)", "😇"), (":*", "😗"),
   (":P", "😛"), ("8)", "😎"), ("(y)", "👍"), (":(", "😞"), (":/", "😕"),
   (":'(", "😢"), ("o.O", "😳"), ("O.o", "😳"), ("-_-", "😑"), (":|", "😐"),
   ("<3", "❤️")]

/-- Python `' '.join(xs)` on character lists. -/
def joinSp : List (List Char) → List Char
  | [] => []
  | [t] => t
  | t :: ts => t ++ ' ' :: joinSp ts

/-- Python `' '.join(xs)` on strings. -/
def pyJoinSp (ts : List String) : String := String.mk (joinSp (ts.map (·.data)))

/-- Source line 230: `' '.join([convertable_emojis.get(i, i) for i in message.split()])`. -/
def convert_symbols_to_emojis (message : String) : String :=
  pyJoinSp ((pySplitWs message.data).map
    (fun t => (alookup convertable_emojis (String.mk t)).getD (String.mk t)))

/-! ## Data model and ingestion pipeline (`load_messages`, lines 234-281) -/

/-- One JSON message object.  `Option` fields model key presence; payload
fields whose value is never read are plain presence `Bool`s.  Text-bearing
fields are code-point lists (Python `str` may hold lone surrogates). -/
structure MsgObj where
  content : Option (List Nat)
  videos : Bool
  photos : Bool
  sticker : Bool
  gifs : Bool
  files : Bool
  audio_files : Bool
  is_unsent : Option Bool
  timestamp_ms : Option Nat
  sender_name : Option (List Nat)
  timestamp : Option String
  author_name : Option (List Nat)
deriving DecidableEq

/-- A normalized `Message` (source lines 20-26). -/
structure Message where
  time : String
  message_type : String
  content : String
  author : List Nat
  platform : String
deriving DecidableEq

/-- Scalar code points to a Lean string (only applied to repair results,
which are free of surrogates). -/
def cpsToString (l : List Nat) : String := String.mk (l.map Char.ofNat)

/-- One root-level export file: presence of the `channel` / `participants`
keys and its `messages` array. -/
structure ExportFile where
  hasChannel : Bool
  hasParticipants : Bool
  messages : List MsgObj
deriving DecidableEq

/-- The classification-and-content part of the `load_messages` loop body
(the ordered payload-presence chain, lines 246-270).  `app` is the current
value of `used_app` (`none` = still unbound, in which case referencing it
raises `NameError`); the result is `none` for the `continue` branch
(message dropped), `some (kind, content)` otherwise, and `.error` when the
Python code raises. -/
def classifyMessage (app : Option String) (m : MsgObj) :
    Except String (Option (String × String)) :=
  match m.content with
  | some c =>
    match app with
    | none => .error "NameError"
    | some a =>
      if a = "facebook" then
        match latin1Utf8Fix c with
        | none => .error "UnicodeDecodeError"
        | some s => .ok (some ("text", convert_symbols_to_emojis (cpsToString s)))
      else if a = "discord" then
        match utf16Fix c with
        | none => .error "UnicodeDecodeError"
        | some s => .ok (some ("text", convert_symbols_to_emojis (cpsToString s)))
      else .ok (some ("text", convert_symbols_to_emojis ""))
  | none =>
    if m.videos then .ok (some ("video", ""))
    else if m.photos then .ok (some ("photo", ""))
    else if m.sticker then .ok (some ("sticker", ""))
    else if m.gifs then .ok (some ("gif", ""))
    else if m.files then .ok (some ("file", ""))
    else if m.audio_files then .ok (some ("audio", ""))
    else
      match m.is_unsent with
      | none => .error "KeyError"
      | some b => if b then .ok (some ("deleted", "")) else .ok none

/-- The per-message body of the `load_messages` loop (lines 246-281):
classify, then normalize the timestamp and repair the author per platform
(lines 272-279) and build the `Message` (line 281). -/
def processMessage (app : Option String) (localOff : Int) (m : MsgObj) :
    Except String (Option Message) :=
  match classifyMessage app m with
  | .error e => .error e
  | .ok none => .ok none
  | .ok (some (ty, content)) =>
    match app with
    | none => .error "NameError"
    | some a =>
      if a = "facebook" then
        match m.timestamp_ms, m.sender_name with
        | some ms, some sn =>
          match latin1Utf8Fix sn with
          | none => .error "UnicodeDecodeError"
          | some author =>
            .ok (some ⟨ctimeOfLocalSecs ((ms / 1000 : Nat) + localOff), ty,
              content, author, "facebook"⟩)
        | _, _ => .error "KeyError"
      else if a = "discord" then
        match m.timestamp, m.author_name with
        | some ts, some an =>
          match discordCodeTime localOff ts with
          | none => .error "ValueError"
          | some timeStr => .ok (some ⟨timeStr, ty, content, an, "discord"⟩)
        | _, _ => .error "KeyError"
      else .error "NameError"

/-- The message loop of one file, accumulating appended messages. -/
def processMsgList (app : Option String) (localOff : Int) :
    List MsgObj → List Message → Except String (List Message)
  | [], acc => .ok acc
  | m :: ms, acc =>
    match processMessage app localOff m with
    | .error e => .error e
    | .ok none => processMsgList app localOff ms acc
    | .ok (some msg) => processMsgList app localOff ms (acc ++ [msg])

/-- One iteration of the file loop (lines 237-281): format detection has no
fall-through branch, so a file with neither root key leaves `used_app` at
its previous value. -/
def processFile (localOff : Int) (st : Option String × List Message)
    (f : ExportFile) : Except String (Option String × List Message) :=
  let app : Option String :=
    if f.hasChannel then some "discord"
    else if f.hasParticipants then some "facebook"
    else st.1
  match processMsgList app localOff f.messages st.2 with
  | .error e => .error e
  | .ok msgs => .ok (app, msgs)

/-- Sort key `"{0:0>20}".format(x).lower()` of line 236, as the
code-point sequence Python compares lexicographically.  It is applied to
each FULL glob path returned by `glob.glob(f"{conversation.path}/*.json")`
— directory prefix included — so for paths of 20 or more characters the
zero-pad never engages. -/
def fileKey (path : String) : List Char :=
  (List.replicate (20 - path.data.length) '0' ++ path.data).map Char.toLower

/-- Full glob path of a corpus file, `f"{dir}/{name}"` — the strings
`glob.glob(f"{conversation.path}/*.json")` yields and the sort key sees. -/
def globPath (dir name : String) : String := dir ++ "/" ++ name

/-- Python's `≤` on strings: code-point-lexicographic. -/
def lexLe : List Char → List Char → Bool
  | [], _ => true
  | _ :: _, [] => false
  | a :: as, b :: bs => if a = b then lexLe as bs else decide (a < b)

/-- The relation `load_messages` sorts the file list by. -/
def fileLe (a b : String × ExportFile) : Prop :=
  lexLe (fileKey a.1) (fileKey b.1) = true

instance : DecidableRel fileLe := fun a b =>
  inferInstanceAs (Decidable (lexLe (fileKey a.1) (fileKey b.1) = true))

theorem lexLe_total (x y : List Char) : lexLe x y = true ∨ lexLe y x = true := by
  induction x generalizing y with
  | nil => left; rfl
  | cons a as ih =>
    cases y with
    | nil => right; rfl
    | cons b bs =>
      by_cases hab : a = b
      · subst hab
        rcases ih bs with h | h
        · left; simpa [lexLe] using h
        · right; simpa [lexLe] using h
      · rcases lt_trichotomy a b with h | h | h
        · left
          rw [lexLe, if_neg hab]
          exact decide_eq_true h
        · exact absurd h hab
        · right
          rw [lexLe, if_neg (Ne.symm hab)]
          exact decide_eq_true h

theorem lexLe_trans {x y z : List Char} (h1 : lexLe x y = true)
    (h2 : lexLe y z = true) : lexLe x z = true := by
  induction x generalizing y z with
  | nil => rfl
  | cons a as ih =>
    cases y with
    | nil => simp [lexLe] at h1
    | cons b bs =>
      cases z with
      | nil => simp [lexLe] at h2
      | cons c cs =>
        by_cases hab : a = b <;> by_cases hbc : b = c
        · subst hab; subst hbc
          rw [lexLe, if_pos rfl] at h1 h2 ⊢
          exact ih h1 h2
        · subst hab
          rw [lexLe, if_pos rfl] at h1
          rw [lexLe, if_neg hbc] at h2 ⊢
          exact h2
        · subst hbc
          rw [lexLe, if_neg hab] at h1
          rw [lexLe, if_pos rfl] at h2
          rw [lexLe, if_neg hab]
          exact h1
        · rw [lexLe, if_neg hab] at h1
          rw [lexLe, if_neg hbc] at h2
          have hac : a < c := lt_trans (of_decide_eq_true h1) (of_decide_eq_true h2)
          have : a ≠ c := ne_of_lt hac
          rw [lexLe, if_neg this]
          exact decide_eq_true hac

theorem lexLe_antisymm {x y : List Char} (h1 : lexLe x y = true)
    (h2 : lexLe y x = true) : x = y := by
  induction x generalizing y with
  | nil =>
    cases y with
    | nil => rfl
    | cons b bs => simp [lexLe] at h2
  | cons a as ih =>
    cases y with
    | nil => simp [lexLe] at h1
    | cons b bs =>
      by_cases hab : a = b
      · subst hab
        rw [lexLe, if_pos rfl] at h1 h2
        rw [ih h1 h2]
      · rw [lexLe, if_neg hab] at h1
        rw [lexLe, if_neg (Ne.symm hab)] at h2
        exact absurd (lt_trans (of_decide_eq_true h1) (of_decide_eq_true h2))
          (lt_irrefl _)

instance : IsTotal (String × ExportFile) fileLe := ⟨fun _ _ => lexLe_total _ _⟩

instance : IsTrans (String × ExportFile) fileLe :=
  ⟨fun _ _ _ h1 h2 => lexLe_trans h1 h2⟩

/-- Sorting `file_list.sort(key=lambda x: "{0:0>20}".format(x).lower())`: a stable
sort by `fileKey` of the file's full glob path. -/
def sortFiles (files : List (String × ExportFile)) : List (String × ExportFile) :=
  List.insertionSort fileLe files

/-- Function `load_messages` (lines 234-281): sort the files by the key of
their full glob paths (the `String` of each pair is the path `glob`
returned, directory prefix included), then run the per-file loop threading
`used_app` and the conversation's message list. -/
def loadMessages (localOff : Int) (files : List (String × ExportFile)) :
    Except String (List Message) :=
  match (sortFiles files).foldlM (fun st p => processFile localOff st p.2) (none, []) with
  | .error e => .error e
  | .ok st => .ok st.2

/-! ## Per-participant aggregation (`analyze_message_length`, lines 80-85) -/

/-- Initialization `{participant: [] for participant in fb + discord}` (line 40). -/
def initLengths (ps : List (List Nat)) : List (List Nat × List Nat) :=
  ps.map (fun p => (p, []))

/-- The loop body of `analyze_message_length`: bump the per-author count,
then `self.participants_message_length[message.author].append(len(content))`
— a `KeyError` when the author is not a known participant. -/
def analyzeGo :
    List Message → List (List Nat × Nat) → List (List Nat × List Nat) →
    Except String (List (List Nat × Nat) × List (List Nat × List Nat))
  | [], counts, lengths => .ok (counts, lengths)
  | m :: ms, counts, lengths =>
    match alookup lengths m.author with
    | none => .error "KeyError"
    | some l =>
      analyzeGo ms (abump counts m.author)
        (aupdate lengths m.author (l ++ [m.content.length]))

/-- Method `Conversation.analyze_message_length` over the participant lists the
`Conversation` was created with. -/
def analyze_message_length (fb dis : List (List Nat)) (msgs : List Message) :
    Except String (List (List Nat × Nat) × List (List Nat × List Nat)) :=
  analyzeGo msgs [] (initLengths (fb ++ dis))

/-! ## Association-list lemmas -/

theorem alookup_aupdate_self {κ β : Type} [DecidableEq κ]
    {l : List (κ × β)} {k : κ} {v₀ : β} (h : alookup l k = some v₀) (v : β) :
    alookup (aupdate l k v) k = some v := by
  induction l with
  | nil => simp [alookup] at h
  | cons p t ih =>
    obtain ⟨k', v'⟩ := p
    by_cases hk : k = k'
    · subst hk
      simp [alookup, aupdate]
    · rw [alookup, if_neg hk] at h
      rw [aupdate, if_neg hk, alookup, if_neg hk]
      exact ih h

theorem alookup_aupdate_ne {κ β : Type} [DecidableEq κ]
    {l : List (κ × β)} {k p : κ} (h : p ≠ k) (v : β) :
    alookup (aupdate l k v) p = alookup l p := by
  induction l with
  | nil => simp [aupdate]
  | cons q t ih =>
    obtain ⟨k', v'⟩ := q
    by_cases hk : k = k'
    · subst hk
      rw [aupdate, if_pos rfl, alookup, if_neg h, alookup, if_neg h]
    · rw [aupdate, if_neg hk]
      by_cases hp : p = k'
      · subst hp; rw [alookup, if_pos rfl, alookup, if_pos rfl]
      · rw [alookup, if_neg hp, alookup, if_neg hp]
        exact ih

theorem aupdate_of_alookup_none {κ β : Type} [DecidableEq κ]
    {l : List (κ × β)} {k : κ} (h : alookup l k = none) (v : β) :
    aupdate l k v = l := by
  induction l with
  | nil => rfl
  | cons q t ih =>
    obtain ⟨k', v'⟩ := q
    by_cases hk : k = k'
    · rw [alookup, if_pos hk] at h
      simp at h
    · rw [alookup, if_neg hk] at h
      rw [aupdate, if_neg hk, ih h]

theorem alookup_aupdate_isSome {κ β : Type} [DecidableEq κ]
    (l : List (κ × β)) (k p : κ) (v : β) :
    (alookup (aupdate l k v) p).isSome = (alookup l p).isSome := by
  by_cases hp : p = k
  · subst hp
    cases h : alookup l p with
    | none => rw [aupdate_of_alookup_none h, h]
    | some v₀ => simp [alookup_aupdate_self h v, h]
  · rw [alookup_aupdate_ne hp]

theorem alookup_initLengths {ps : List (List Nat)} {p : List Nat} :
    alookup (initLengths ps) p = if p ∈ ps then some [] else none := by
  induction ps with
  | nil => simp [initLengths, alookup]
  | cons q t ih =>
    by_cases hq : p = q
    · subst hq
      simp [initLengths, alookup]
    · rw [initLengths, List.map_cons, alookup, if_neg hq]
      rw [initLengths] at ih
      rw [ih]
      simp [hq]

/-! ## Aggregation-loop lemmas -/

theorem analyzeGo_ok {msgs : List Message} :
    ∀ {counts : List (List Nat × Nat)} {lengths : List (List Nat × List Nat)},
    (∀ m ∈ msgs, (alookup lengths m.author).isSome) →
    ∃ c l', analyzeGo msgs counts lengths = .ok (c, l') ∧
      ∀ p v, alookup lengths p = some v →
        alookup l' p =
          some (v ++ (msgs.filter (fun mm => mm.author == p)).map (·.content.length)) := by
  induction msgs with
  | nil =>
    intro counts lengths _
    exact ⟨counts, lengths, rfl, fun p v hv => by simpa [analyzeGo] using hv⟩
  | cons m ms ih =>
    intro counts lengths h
    have hm := h m (by simp)
    obtain ⟨lm, hlm⟩ := Option.isSome_iff_exists.mp hm
    have hrec : ∀ m' ∈ ms,
        (alookup (aupdate lengths m.author (lm ++ [m.content.length])) m'.author).isSome := by
      intro m' hm'
      rw [alookup_aupdate_isSome]
      exact h m' (by simp [hm'])
    obtain ⟨c, l', hok, hlook⟩ := ih hrec
    refine ⟨c, l', ?_, ?_⟩
    · rw [analyzeGo, hlm]
      exact hok
    · intro p v hv
      by_cases hp : p = m.author
      · subst hp
        have hveq : v = lm := by rw [hv] at hlm; exact Option.some.inj hlm
        subst hveq
        have := hlook m.author (v ++ [m.content.length])
          (alookup_aupdate_self hv (v ++ [m.content.length]))
        rw [this]
        simp [List.filter]
      · have := hlook p v (by rw [alookup_aupdate_ne hp]; exact hv)
        rw [this]
        have hne : (m.author == p) = false := by
          simp [beq_iff_eq]
          exact fun he => hp he.symm
        simp [List.filter, hne]

theorem analyzeGo_error {msgs : List Message} :
    ∀ {counts : List (List Nat × Nat)} {lengths : List (List Nat × List Nat)},
    (∃ m ∈ msgs, alookup lengths m.author = none) →
    ∃ e, analyzeGo msgs counts lengths = .error e := by
  induction msgs with
  | nil => intro _ _ h; simp at h
  | cons m ms ih =>
    intro counts lengths h
    cases hlm : alookup lengths m.author with
    | none => exact ⟨"KeyError", by rw [analyzeGo, hlm]⟩
    | some lm =>
      obtain ⟨m', hm', hnone⟩ := h
      rcases List.mem_cons.mp hm' with rfl | hms
      · rw [hlm] at hnone; simp at hnone
      · have : ∃ m' ∈ ms,
            alookup (aupdate lengths m.author (lm ++ [m.content.length])) m'.author = none := by
          refine ⟨m', hms, ?_⟩
          have := alookup_aupdate_isSome lengths m.author m'.author (lm ++ [m.content.length])
          rw [hnone] at this
          simpa [Option.isSome_iff_exists] using
            (Option.not_isSome_iff_eq_none.mp (by rw [this]; simp))
        obtain ⟨e, he⟩ := ih this
        exact ⟨e, by rw [analyzeGo, hlm]; exact he⟩

/-! ## Range facts about the civil-date algorithm -/

theorem getD_mem_of_lt {α : Type} {l : List α} {n : Nat} {d : α}
    (h : n < l.length) : l.getD n d ∈ l := by
  induction l generalizing n with
  | nil => simp at h
  | cons a t ih =>
    cases n with
    | zero => simp [List.getD]
    | succ k =>
      simp only [List.getD_cons_succ]
      exact List.mem_cons_of_mem a (ih (by simpa using h))

theorem cdDoe_le (z : Int) : cdDoe z ≤ 146096 := by
  unfold cdDoe
  have h1 := Int.emod_lt_of_pos (z + 719468) (show (0:Int) < 146097 by norm_num)
  have h2 := Int.emod_nonneg (z + 719468) (show (146097:Int) ≠ 0 by norm_num)
  omega

theorem cdYoe_le (z : Int) : cdYoe z ≤ 399 := by
  have := cdDoe_le z
  unfold cdYoe
  omega

theorem cdDoy_le (z : Int) : cdDoy z ≤ 464 := by
  have := cdDoe_le z
  unfold cdDoy cdYoe
  omega

theorem cdMp_le (z : Int) : cdMp z ≤ 15 := by
  have := cdDoy_le z
  unfold cdMp
  omega

theorem civil_month_range (z : Int) :
    1 ≤ (civilFromDays z).2.1 ∧ (civilFromDays z).2.1 ≤ 12 := by
  have := cdMp_le z
  unfold civilFromDays
  dsimp only
  split <;> omega

theorem civil_year_range {t : Int} (h0 : 0 ≤ t) (h1 : t < 253402300800) :
    0 ≤ (civilFromDays (t/86400)).1 ∧ (civilFromDays (t/86400)).1 ≤ 9999 := by
  have hz0 : 0 ≤ t/86400 := Int.ediv_nonneg h0 (by norm_num)
  have hz1 : t/86400 ≤ 2932896 := by
    have := Int.ediv_le_ediv (show (0:Int) < 86400 by norm_num)
      (show t ≤ 253402300799 by omega)
    simpa using this
  unfold civilFromDays cdMp cdDoy cdYoe cdDoe
  dsimp only
  split <;> omega

theorem weekdayNames_good :
    ∀ w ∈ weekdayNames, w ≠ [] ∧ ∀ c ∈ w, c.isWhitespace = false ∧ c ≠ ':' := by
  decide

theorem monthNames_good :
    ∀ w ∈ monthNames, w ≠ [] ∧ ∀ c ∈ w, c.isWhitespace = false ∧ c ≠ ':' := by
  decide

theorem weekdayAbbrev_mem (z : Int) : weekdayAbbrev z ∈ weekdayNames := by
  unfold weekdayAbbrev
  have h1 := Int.emod_lt_of_pos (z + 3) (show (0:Int) < 7 by norm_num)
  have h2 := Int.emod_nonneg (z + 3) (show (7:Int) ≠ 0 by norm_num)
  exact getD_mem_of_lt (by simp [weekdayNames]; omega)

theorem monthAbbrev_mem {m : Nat} (h1 : 1 ≤ m) (h2 : m ≤ 12) :
    monthAbbrev m ∈ monthNames := by
  unfold monthAbbrev
  exact getD_mem_of_lt (by simp [monthNames]; omega)

theorem ctWeekday_good (t : Int) :
    ctWeekday t ≠ [] ∧ ∀ c ∈ ctWeekday t, c.isWhitespace = false ∧ c ≠ ':' :=
  weekdayNames_good _ (weekdayAbbrev_mem _)

theorem ctMonth_good (t : Int) :
    ctMonth t ≠ [] ∧ ∀ c ∈ ctMonth t, c.isWhitespace = false ∧ c ≠ ':' := by
  have h := civil_month_range (t/86400)
  exact monthNames_good _ (monthAbbrev_mem h.1 h.2)

theorem ctDay_good (t : Int) :
    ctDay t ≠ [] ∧ ∀ c ∈ ctDay t, c.isWhitespace = false ∧ c ≠ ':' := by
  refine ⟨natReprL_ne_nil _, fun c hc => ?_⟩
  have := natReprL_good hc
  exact ⟨this.1, this.2.1⟩

theorem ctTime_good (t : Int) :
    ctTime t ≠ [] ∧ ∀ c ∈ ctTime t, c.isWhitespace = false := by
  constructor
  · unfold ctTime timeField
    intro h
    exact pad2_ne_nil _ (List.append_eq_nil.mp h).1
  · intro c hc
    unfold ctTime timeField at hc
    rcases List.mem_append.mp hc with h | h
    · exact (pad2_good c h).1
    · rcases List.mem_cons.mp h with rfl | h
      · decide
      · rcases List.mem_append.mp h with h | h
        · exact (pad2_good c h).1
        · rcases List.mem_cons.mp h with rfl | h
          · decide
          · exact (pad2_good c h).1

theorem ctYear_good (t : Int) :
    ctYear t ≠ [] ∧ ∀ c ∈ ctYear t, c.isWhitespace = false ∧ c ≠ ':' := by
  unfold ctYear yearField
  split
  · refine ⟨by simp, fun c hc => ?_⟩
    rcases List.mem_cons.mp hc with rfl | hc
    · decide
    · have := padZeros_good (fun _ h => natReprL_good h) c hc
      exact ⟨this.1, this.2.1⟩
  · constructor
    · intro h
      rw [padZeros] at h
      exact natReprL_ne_nil _ (List.append_eq_nil.mp h).2
    · intro c hc
      have := padZeros_good (fun _ h => natReprL_good h) c hc
      exact ⟨this.1, this.2.1⟩

theorem ctYear_digits {t : Int} (h0 : 0 ≤ t) (h1 : t < 253402300800) :
    (ctYear t).length = 4 ∧ ∀ c ∈ ctYear t, c.isDigit = true := by
  have hy := civil_year_range h0 h1
  unfold ctYear yearField
  rw [if_neg (by omega)]
  constructor
  · refine padZeros_length (natReprL_length_le (by norm_num) ?_)
    omega
  · intro c hc
    exact (padZeros_good (fun _ h => natReprL_good h) c hc).2.2.2

/-! ## Decomposition of the rendered timestamp -/

theorem ne_space_of_not_ws {c : Char} (h : c.isWhitespace = false) : c ≠ ' ' := by
  intro he
  subst he
  simp [Char.isWhitespace] at h

/-- A nonempty whitespace-free token followed by a space is split off. -/
theorem pySplitWsAux_tok_sp {t rest : List Char} (hne : t ≠ [])
    (hws : ∀ c ∈ t, c.isWhitespace = false) :
    pySplitWsAux (t ++ ' ' :: rest) [] = t :: pySplitWsAux rest [] := by
  rw [pySplitWsAux_token hws (' ' :: rest) [], List.append_nil,
    pySplitWsAux_ws_flush (by simpa using hne), List.reverse_reverse]

/-- A nonempty whitespace-free trailing token is the final field. -/
theorem pySplitWsAux_single {t : List Char} (hne : t ≠ [])
    (hws : ∀ c ∈ t, c.isWhitespace = false) :
    pySplitWsAux t [] = [t] := by
  have h1 : pySplitWsAux (t ++ []) [] = pySplitWsAux [] (t.reverse ++ []) :=
    pySplitWsAux_token hws [] []
  simp only [List.append_nil] at h1
  rw [h1, pySplitWsAux_nil_flush (by simpa using hne), List.reverse_reverse]

theorem pySplit_sep_head {sep : Char} {l : List Char} :
    pySplit sep (sep :: l) = [] :: pySplit sep l := by
  rw [pySplit]
  simp

/-- The whitespace split of the rendered `ctime` string is always exactly
the five tokens weekday / month / day / `HH:MM:SS` / year. -/
theorem ctChars_split (t : Int) :
    pySplitWs (ctChars t) = [ctWeekday t, ctMonth t, ctDay t, ctTime t, ctYear t] := by
  obtain ⟨hWne, hWg⟩ := ctWeekday_good t
  obtain ⟨hMne, hMg⟩ := ctMonth_good t
  obtain ⟨hDne, hDg⟩ := ctDay_good t
  obtain ⟨hTne, hTg⟩ := ctTime_good t
  obtain ⟨hYne, hYg⟩ := ctYear_good t
  have hW : ∀ c ∈ ctWeekday t, c.isWhitespace = false := fun c hc => (hWg c hc).1
  have hM : ∀ c ∈ ctMonth t, c.isWhitespace = false := fun c hc => (hMg c hc).1
  have hD : ∀ c ∈ ctDay t, c.isWhitespace = false := fun c hc => (hDg c hc).1
  have hY : ∀ c ∈ ctYear t, c.isWhitespace = false := fun c hc => (hYg c hc).1
  unfold pySplitWs ctChars
  rw [pySplitWsAux_tok_sp hWne hW, pySplitWsAux_tok_sp hMne hM]
  split
  · simp only [List.singleton_append]
    rw [pySplitWsAux_ws_nil, pySplitWsAux_tok_sp hDne hD,
      pySplitWsAux_tok_sp hTne hTg, pySplitWsAux_single hYne hY]
  · simp only [List.nil_append]
    rw [pySplitWsAux_tok_sp hDne hD, pySplitWsAux_tok_sp hTne hTg,
      pySplitWsAux_single hYne hY]

/-- The prefix of the rendered string before the first colon:
`"Www Mmm dd HH"` (with `ctime`'s possible extra day padding space). -/
theorem ctChars_colon_head (t : Int) :
    (pySplit ':' (ctChars t)).headD [] =
      ctWeekday t ++ ' ' ::
        (ctMonth t ++ ' ' ::
          ((if (civilFromDays (t / 86400)).2.2 < 10 then [' '] else []) ++
            (ctDay t ++ ' ' :: pad2 ((t % 86400).toNat / 3600)))) := by
  obtain ⟨_, hWg⟩ := ctWeekday_good t
  obtain ⟨_, hMg⟩ := ctMonth_good t
  obtain ⟨_, hDg⟩ := ctDay_good t
  have hsplit : ctChars t =
      (ctWeekday t ++ ' ' ::
        (ctMonth t ++ ' ' ::
          ((if (civilFromDays (t / 86400)).2.2 < 10 then [' '] else []) ++
            (ctDay t ++ ' ' :: pad2 ((t % 86400).toNat / 3600))))) ++
      ':' :: (pad2 ((t % 86400).toNat % 3600 / 60) ++
        (':' :: pad2 ((t % 86400).toNat % 60)) ++ ' ' :: ctYear t) := by
    unfold ctChars ctTime timeField
    simp [List.append_assoc]
  have hfree : ∀ c ∈ ctWeekday t ++ ' ' ::
      (ctMonth t ++ ' ' ::
        ((if (civilFromDays (t / 86400)).2.2 < 10 then [' '] else []) ++
          (ctDay t ++ ' ' :: pad2 ((t % 86400).toNat / 3600)))), c ≠ ':' := by
    intro c hc
    rcases List.mem_append.mp hc with h | h
    · exact (hWg c h).2
    · rcases List.mem_cons.mp h with rfl | h
      · decide
      · rcases List.mem_append.mp h with h | h
        · exact (hMg c h).2
        · rcases List.mem_cons.mp h with rfl | h
          · decide
          · rcases List.mem_append.mp h with h | h
            · split at h
              · rcases List.mem_singleton.mp h with rfl
                decide
              · simp at h
            · rcases List.mem_append.mp h with h | h
              · exact (hDg c h).2
              · rcases List.mem_cons.mp h with rfl | h
                · decide
                · exact (pad2_good c h).2.1
  rw [hsplit, pySplit_append hfree]
  rfl

/-- The space split (empties kept) of the pre-colon prefix ends with the
hour field. -/
theorem ctChars_hour_last (t : Int) :
    (pySplit ' ' ((pySplit ':' (ctChars t)).headD [])).getLastD [] =
      pad2 ((t % 86400).toNat / 3600) := by
  obtain ⟨_, hWg⟩ := ctWeekday_good t
  obtain ⟨_, hMg⟩ := ctMonth_good t
  obtain ⟨_, hDg⟩ := ctDay_good t
  have hW : ∀ c ∈ ctWeekday t, c ≠ ' ' :=
    fun c hc => ne_space_of_not_ws (hWg c hc).1
  have hM : ∀ c ∈ ctMonth t, c ≠ ' ' :=
    fun c hc => ne_space_of_not_ws (hMg c hc).1
  have hD : ∀ c ∈ ctDay t, c ≠ ' ' :=
    fun c hc => ne_space_of_not_ws (hDg c hc).1
  have hH : ∀ c ∈ pad2 ((t % 86400).toNat / 3600), c ≠ ' ' :=
    fun c hc => ne_space_of_not_ws (pad2_good c hc).1
  rw [ctChars_colon_head, pySplit_append hW, pySplit_append hM]
  split
  · simp only [List.singleton_append]
    rw [pySplit_sep_head, pySplit_append hD, pySplit_sepFree hH]
    simp [List.getLastD]
  · simp only [List.nil_append]
    rw [pySplit_append hD, pySplit_sepFree hH]
    simp [List.getLastD]

theorem data_mk (l : List Char) : (String.mk l).data = l := rfl

/-- The collapsing whitespace split of the pre-colon prefix: weekday,
month, day, hour. -/
theorem ctChars_colon_head_ws (t : Int) :
    pySplitWs ((pySplit ':' (ctChars t)).headD []) =
      [ctWeekday t, ctMonth t, ctDay t, pad2 ((t % 86400).toNat / 3600)] := by
  obtain ⟨hWne, hWg⟩ := ctWeekday_good t
  obtain ⟨hMne, hMg⟩ := ctMonth_good t
  obtain ⟨hDne, hDg⟩ := ctDay_good t
  have hW : ∀ c ∈ ctWeekday t, c.isWhitespace = false := fun c hc => (hWg c hc).1
  have hM : ∀ c ∈ ctMonth t, c.isWhitespace = false := fun c hc => (hMg c hc).1
  have hD : ∀ c ∈ ctDay t, c.isWhitespace = false := fun c hc => (hDg c hc).1
  have hH : ∀ c ∈ pad2 ((t % 86400).toNat / 3600), c.isWhitespace = false :=
    fun c hc => (pad2_good c hc).1
  rw [ctChars_colon_head]
  unfold pySplitWs
  rw [pySplitWsAux_tok_sp hWne hW, pySplitWsAux_tok_sp hMne hM]
  split
  · simp only [List.singleton_append]
    rw [pySplitWsAux_ws_nil, pySplitWsAux_tok_sp hDne hD,
      pySplitWsAux_single (pad2_ne_nil _) hH]
  · simp only [List.nil_append]
    rw [pySplitWsAux_tok_sp hDne hD, pySplitWsAux_single (pad2_ne_nil _) hH]

theorem weekdayOf_ctime (t : Int) :
    weekdayOf (ctimeOfLocalSecs t) = String.mk (ctWeekday t) := by
  obtain ⟨_, hWg⟩ := ctWeekday_good t
  have hW : ∀ c ∈ ctWeekday t, c ≠ ' ' :=
    fun c hc => ne_space_of_not_ws (hWg c hc).1
  unfold weekdayOf ctimeOfLocalSecs
  rw [data_mk]
  unfold ctChars
  rw [pySplit_append hW]
  rfl

theorem hourOf_ctime (t : Int) :
    hourOf (ctimeOfLocalSecs t) = String.mk (pad2 ((t % 86400).toNat / 3600)) := by
  unfold hourOf ctimeOfLocalSecs
  rw [data_mk]
  dsimp only
  rw [ctChars_hour_last]

theorem dayKeyOf_ctime (t : Int) :
    dayKeyOf (ctimeOfLocalSecs t) =
      String.mk (ctMonth t ++ (' ' :: (ctDay t ++ (' ' :: ctYear t)))) := by
  unfold dayKeyOf ctimeOfLocalSecs
  rw [data_mk]
  dsimp only
  rw [ctChars_split, ctChars_colon_head_ws]
  simp [List.getD]

/-! ## Joining and re-splitting tokens -/

theorem pySplitWs_joinSp {ts : List (List Char)}
    (h : ∀ t ∈ ts, t ≠ [] ∧ ∀ c ∈ t, c.isWhitespace = false) :
    pySplitWs (joinSp ts) = ts := by
  induction ts with
  | nil => rfl
  | cons t rest ih =>
    cases rest with
    | nil =>
      obtain ⟨hne, hws⟩ := h t (by simp)
      show pySplitWsAux (joinSp [t]) [] = [t]
      rw [joinSp]
      exact pySplitWsAux_single hne hws
    | cons t2 rest2 =>
      obtain ⟨hne, hws⟩ := h t (by simp)
      show pySplitWsAux (t ++ ' ' :: joinSp (t2 :: rest2)) [] = t :: t2 :: rest2
      rw [pySplitWsAux_tok_sp hne hws]
      exact congrArg (t :: ·) (ih (fun x hx => h x (by simp [hx])))

/-! ## Sorting facts for the file list -/

/-- Strict comparison of file-sort keys (for uniqueness of the sorted
order; the pipeline itself sorts by the non-strict `fileLe`). -/
def fileKeyLt (a b : String) : Prop :=
  lexLe (fileKey a) (fileKey b) = true ∧ fileKey a ≠ fileKey b

instance : DecidableRel fileKeyLt := fun _ _ =>
  inferInstanceAs (Decidable (_ ∧ _))

instance : IsAntisymm String fileKeyLt :=
  ⟨fun _ _ h1 h2 => absurd (lexLe_antisymm h1.1 h2.1) h1.2⟩

/-- The twelve bare file names of a multi-part export, in numeric order. -/
def fileNames12 : List String :=
  ["message_1.json", "message_2.json", "message_3.json", "message_4.json",
   "message_5.json", "message_6.json", "message_7.json", "message_8.json",
   "message_9.json", "message_10.json", "message_11.json", "message_12.json"]

/-- Sorting any permutation of a list of paths with pairwise-distinct,
strictly increasing sort keys reproduces that list. -/
theorem sortFiles_eq_of_perm {names : List String} {l : List (String × ExportFile)}
    (h : (l.map Prod.fst).Perm names)
    (hkeys : names.Pairwise (fun a b => fileKey a ≠ fileKey b))
    (hsorted : names.Sorted fileKeyLt) :
    (sortFiles l).map Prod.fst = names := by
  have hsort : (sortFiles l).Sorted fileLe := List.sorted_insertionSort fileLe l
  have hperm : (sortFiles l).Perm l := List.perm_insertionSort fileLe l
  have hkeysl : l.Pairwise (fun a b => fileKey a.1 ≠ fileKey b.1) := by
    have := (List.Perm.pairwise_iff
      (fun {a b} (hab : fileKey a ≠ fileKey b) => hab.symm) h.symm).mp hkeys
    exact (@List.pairwise_map _ _ Prod.fst (fun a b => fileKey a ≠ fileKey b) l).mp this
  have hkeyss : (sortFiles l).Pairwise (fun a b => fileKey a.1 ≠ fileKey b.1) :=
    (List.Perm.pairwise_iff
      (fun {a b} (hab : fileKey a.1 ≠ fileKey b.1) => hab.symm) hperm.symm).mp hkeysl
  have hstrict : (sortFiles l).Pairwise (fun a b => fileKeyLt a.1 b.1) := by
    have := List.Pairwise.and hsort hkeyss
    exact this.imp (fun {a b} hab => ⟨hab.1, hab.2⟩)
  have hmapsorted : ((sortFiles l).map Prod.fst).Sorted fileKeyLt :=
    (@List.pairwise_map _ _ Prod.fst fileKeyLt (sortFiles l)).mpr hstrict
  have hmapperm : ((sortFiles l).map Prod.fst).Perm names :=
    (hperm.map Prod.fst).trans h
  exact List.eq_of_perm_of_sorted hmapperm hmapsorted hsorted

theorem mk_data (s : String) : String.mk s.data = s := rfl

/-! ## Inversion of the per-message pipeline step -/

theorem discordCodeTime_shape {localOff : Int} {iso s : String}
    (h : discordCodeTime localOff iso = some s) : ∃ u, s = ctimeOfLocalSecs u := by
  unfold discordCodeTime at h
  rcases hp : fromisoformat ((pySplit '.' iso.data).headD []) with _ | ⟨w, off⟩
  · rw [hp] at h
    exact absurd h (by simp)
  · rw [hp] at h
    cases off with
    | none => exact ⟨w, (Option.some.inj h).symm⟩
    | some o => exact ⟨w - o + localOff, (Option.some.inj h).symm⟩

/-- Everything true of a message the loop actually appends: its kind and
content come from classification, its timestamp is a `ctime` rendering,
and its author is the platform-specific one of lines 275 / 279. -/
theorem processMessage_ok_inv {app : Option String} {localOff : Int}
    {m : MsgObj} {msg : Message}
    (h : processMessage app localOff m = .ok (some msg)) :
    classifyMessage app m = .ok (some (msg.message_type, msg.content)) ∧
    (∃ u, msg.time = ctimeOfLocalSecs u) ∧
    ((app = some "facebook" ∧ msg.platform = "facebook" ∧
        ∃ ms sn, m.timestamp_ms = some ms ∧ m.sender_name = some sn ∧
          latin1Utf8Fix sn = some msg.author ∧
          msg.time = ctimeOfLocalSecs ((ms / 1000 : Nat) + localOff)) ∨
      (app = some "discord" ∧ msg.platform = "discord" ∧
        m.author_name = some msg.author ∧
        ∃ ts, m.timestamp = some ts ∧
          discordCodeTime localOff ts = some msg.time)) := by
  unfold processMessage at h
  split at h
  · simp at h
  · simp at h
  · next ty content heq =>
    split at h
    · simp at h
    · next a =>
      by_cases hfb : a = "facebook"
      · subst hfb
        rw [if_pos rfl] at h
        split at h
        · next ms sn hms hsn =>
          split at h
          · simp at h
          · next author hfix =>
            have hx := Option.some.inj (Except.ok.inj h)
            subst hx
            exact ⟨heq, ⟨_, rfl⟩, .inl ⟨rfl, rfl, ms, sn, hms, hsn, hfix, rfl⟩⟩
        · simp at h
      · rw [if_neg hfb] at h
        by_cases hdc : a = "discord"
        · subst hdc
          rw [if_pos rfl] at h
          split at h
          · next ts an hts han =>
            split at h
            · simp at h
            · next timeStr hdt =>
              have hx := Option.some.inj (Except.ok.inj h)
              subst hx
              obtain ⟨u, hu⟩ := discordCodeTime_shape hdt
              exact ⟨heq, ⟨u, hu⟩, .inr ⟨rfl, rfl, han, ts, hts, by rw [hdt]⟩⟩
          · simp at h
        · rw [if_neg hdc] at h
          simp at h

/-- Classification puts `text` first: a present `content` field decides the
kind before any other payload field is looked at. -/
theorem classify_content_text {app : Option String} {m : MsgObj} {c : List Nat}
    (hc : m.content = some c) :
    ∀ ty ct, classifyMessage app m = .ok (some (ty, ct)) → ty = "text" := by
  intro ty ct h
  unfold classifyMessage at h
  split at h
  · next c' hc' =>
    rw [hc] at hc'
    have hcc : c' = c := Option.some.inj hc'.symm
    subst hcc
    split at h
    · simp at h
    · next a =>
      by_cases hfb : a = "facebook"
      · rw [if_pos hfb] at h
        split at h
        · simp at h
        · exact (congrArg Prod.fst (Option.some.inj (Except.ok.inj h))).symm
      · rw [if_neg hfb] at h
        by_cases hdc : a = "discord"
        · rw [if_pos hdc] at h
          split at h
          · simp at h
          · exact (congrArg Prod.fst (Option.some.inj (Except.ok.inj h))).symm
        · rw [if_neg hdc] at h
          exact (congrArg Prod.fst (Option.some.inj (Except.ok.inj h))).symm
  · next hc' =>
    rw [hc] at hc'
    simp at hc'

/-! ## Concrete fixtures used by counterexamples and witnesses -/

/-- A message object with no fields at all (all keys absent). -/
def emptyMsg : MsgObj :=
  ⟨none, false, false, false, false, false, false, none, none, none, none, none⟩

/-- A well-formed Facebook text message: content `"hi"`, sender `"a"`. -/
def fbTextMsg1 : MsgObj :=
  ⟨some [104, 105], false, false, false, false, false, false, none,
    some 0, some [97], none, none⟩

/-- A well-formed Facebook text message: content `"yo"`, sender `"b"`. -/
def fbTextMsg2 : MsgObj :=
  ⟨some [121, 111], false, false, false, false, false, false, none,
    some 1000, some [98], none, none⟩

/-- A Discord video message whose author name holds the split surrogate
pair `U+D83D U+DE00` (the two halves of 😀). -/
def dcVideoMsg : MsgObj :=
  ⟨none, true, false, false, false, false, false, none, none, none,
    some "2021-06-01T12:00:00.500000+00:00", some [55357, 56832]⟩

/-! ## Claim theorems -/

/-- Claim C1, counterexample: a message object with none of the recognized
payload fields and no `is_unsent` key at all — so its unsent flag is not
set — makes ingestion fail with a `KeyError` (line 267 evaluates
`message["is_unsent"]`), instead of being silently dropped. -/
theorem claim_C1_cex :
    loadMessages 0 [("message_1.json", ⟨false, true, [emptyMsg]⟩)] =
      .error "KeyError" := by rfl

/-- Claim C1 (amended): a message object with none of the recognized
payload fields whose `is_unsent` field is present with value `False` is
silently dropped — no `Message` is appended and the loop continues with
the next message.  (When the `is_unsent` key is absent, ingestion instead
fails with a `KeyError`.) -/
theorem claim_C1 (app : Option String) (localOff : Int) (m : MsgObj)
    (hc : m.content = none) (hv : m.videos = false) (hp : m.photos = false)
    (hs : m.sticker = false) (hg : m.gifs = false) (hf : m.files = false)
    (ha : m.audio_files = false) (hu : m.is_unsent = some false) :
    processMessage app localOff m = .ok none ∧
    ∀ ms acc, processMsgList app localOff (m :: ms) acc =
      processMsgList app localOff ms acc := by
  have h1 : processMessage app localOff m = .ok none := by
    unfold processMessage classifyMessage
    rw [hc, hv, hp, hs, hg, hf, ha, hu]
    simp
  exact ⟨h1, fun ms acc => by rw [processMsgList, h1]⟩

theorem claim_C1_witness :
    processMessage (some "facebook") 0
      ⟨none, false, false, false, false, false, false, some false,
        none, none, none, none⟩ = .ok none :=
  (claim_C1 (some "facebook") 0 _ rfl rfl rfl rfl rfl rfl rfl rfl).1

/-- Claim C2, counterexample: a two-file corpus whose second file has
neither a `channel` nor a `participants` root key.  Ingestion does not
fail, and the second file's message is ingested as a Facebook message —
`used_app` silently keeps the value left over from the first file (the
detection chain of lines 241-244 has no `else` branch). -/
theorem claim_C2_cex :
    loadMessages 0
      [("message_1.json", ⟨false, true, [fbTextMsg1]⟩),
       ("message_2.json", ⟨false, false, [fbTextMsg2]⟩)] =
      .ok [⟨"Thu Jan  1 00:00:00 1970", "text", "hi", [97], "facebook"⟩,
           ⟨"Thu Jan  1 00:00:01 1970", "text", "yo", [98], "facebook"⟩] := by
  rfl

/-- Claim C2 (amended): a file with neither root key is not a detected
failure; it is processed under the platform left in `used_app` by the most
recent preceding file, and if no file ever set a platform, processing a
message raises a `NameError` (unbound variable), not a format error. -/
theorem claim_C2 (localOff : Int) (f : ExportFile) (hch : f.hasChannel = false)
    (hpa : f.hasParticipants = false) :
    (∀ st, processFile localOff st f =
      Except.map (fun msgs => (st.1, msgs))
        (processMsgList st.1 localOff f.messages st.2)) ∧
    (∀ m c, m.content = some c →
      processMessage none localOff m = .error "NameError") := by
  constructor
  · intro st
    unfold processFile
    rw [hch, hpa]
    cases hx : processMsgList st.1 localOff f.messages st.2 <;> simp [hx, Except.map]
  · intro m c hmc
    unfold processMessage classifyMessage
    rw [hmc]

theorem claim_C2_witness :
    processFile 0 ((some "facebook"), []) ⟨false, false, []⟩ =
      .ok (some "facebook", []) ∧
    processMessage none 0 fbTextMsg1 = .error "NameError" :=
  ⟨((claim_C2 0 ⟨false, false, []⟩ rfl rfl).1 ((some "facebook"), [])).trans rfl,
   (claim_C2 0 ⟨false, false, []⟩ rfl rfl).2 fbTextMsg1 [104, 105] rfl⟩

/-- Claim C3, counterexample: the Discord timestamp
`"2021-06-01T12:00:00.500000+00:00"` under a local zone of UTC+1.  The
spec-described normalization (strip sub-seconds, honor the `+00:00`
offset, convert to local) yields 13:00 local, but the code renders 12:00:
`split(".")[0]` discards the offset together with the fraction, and
`astimezone` then treats the naive time as already local. -/
theorem claim_C3_cex :
    processMessage (some "discord") 3600 dcVideoMsg =
      .ok (some ⟨"Tue Jun  1 12:00:00 2021", "video", "", [55357, 56832],
        "discord"⟩) ∧
    discordTime_spec 3600 "2021-06-01T12:00:00.500000+00:00" =
      some "Tue Jun  1 13:00:00 2021" ∧
    ("Tue Jun  1 12:00:00 2021" : String) ≠ "Tue Jun  1 13:00:00 2021" :=
  ⟨rfl, rfl, by decide⟩

/-- Claim C3 (amended): for any ISO timestamp containing a `.`, the code
keeps only the part before the `.`; both the sub-second digits and the UTC
offset after them are discarded, the remainder parses as a naive time, and
`astimezone` leaves its wall clock unchanged — the rendering is therefore
independent of the embedded offset and of the system timezone. -/
theorem claim_C3 (localOff : Int) (pre rest : List Char) (w : Int)
    (hfree : ∀ c ∈ pre, c ≠ '.')
    (hparse : fromisoformat pre = some (w, none)) :
    discordCodeTime localOff (String.mk (pre ++ '.' :: rest)) =
      some (ctimeOfLocalSecs w) := by
  unfold discordCodeTime
  rw [data_mk, pySplit_append hfree]
  simp only [List.headD_cons]
  rw [hparse]

theorem claim_C3_witness :
    discordCodeTime 3600
      (String.mk ("2021-06-01T12:00:00".data ++ '.' :: "500000+00:00".data)) =
      some (ctimeOfLocalSecs 1622548800) :=
  claim_C3 3600 _ _ 1622548800 (by decide) (by decide)

/-- Claim C4: every appended message's timestamp is a `ctime` rendering of
some wall-clock second count, and (for any instant from the epoch to the
year 9999) the rendered string decomposes under the positional split into
weekday / month / day / `HH:MM:SS` / 4-digit year, with the aggregator's
weekday, hour and calendar-day extractions recovering exactly those
components. -/
theorem claim_C4 (t : Int) (h0 : 0 ≤ t) (h1 : t < 253402300800) :
    (∀ (app : Option String) (localOff : Int) (m : MsgObj) (msg : Message),
      processMessage app localOff m = .ok (some msg) →
      ∃ u, msg.time = ctimeOfLocalSecs u) ∧
    pySplitWs (ctimeOfLocalSecs t).data =
      [ctWeekday t, ctMonth t, ctDay t, ctTime t, ctYear t] ∧
    ctWeekday t ∈ weekdayNames ∧ ctMonth t ∈ monthNames ∧
    (∀ c ∈ ctDay t, c.isDigit = true) ∧
    (ctYear t).length = 4 ∧ (∀ c ∈ ctYear t, c.isDigit = true) ∧
    weekdayOf (ctimeOfLocalSecs t) = String.mk (ctWeekday t) ∧
    hourOf (ctimeOfLocalSecs t) = String.mk (pad2 ((t % 86400).toNat / 3600)) ∧
    dayKeyOf (ctimeOfLocalSecs t) =
      String.mk (ctMonth t ++ (' ' :: (ctDay t ++ (' ' :: ctYear t)))) := by
  have hmon : ctMonth t ∈ monthNames := by
    unfold ctMonth
    exact monthAbbrev_mem (civil_month_range _).1 (civil_month_range _).2
  refine ⟨fun app localOff m msg h => (processMessage_ok_inv h).2.1,
    ctChars_split t, weekdayAbbrev_mem _, hmon,
    fun c hc => (natReprL_good hc).2.2.2,
    (ctYear_digits h0 h1).1, (ctYear_digits h0 h1).2,
    weekdayOf_ctime t, hourOf_ctime t, dayKeyOf_ctime t⟩

theorem claim_C4_witness :
    pySplitWs (ctimeOfLocalSecs 0).data =
      [ctWeekday 0, ctMonth 0, ctDay 0, ctTime 0, ctYear 0] :=
  (claim_C4 0 (by decide) (by decide)).2.1

/-- Claim C5, counterexample: a Discord message whose author name holds
the split surrogate pair `[U+D83D, U+DE00]`.  The UTF-16 surrogate round
trip would collapse it to `[U+1F600]` (😀), but the stored author is the
raw name — line 279 reads `message["author"]["name"]` with no repair. -/
theorem claim_C5_cex :
    loadMessages 0 [("m.json", ⟨true, false, [dcVideoMsg]⟩)] =
      .ok [⟨"Tue Jun  1 12:00:00 2021", "video", "", [55357, 56832],
        "discord"⟩] ∧
    utf16Fix [55357, 56832] = some [128512] ∧
    ([55357, 56832] : List Nat) ≠ [128512] :=
  ⟨rfl, rfl, by decide⟩

/-- Claim C5 (amended): a Facebook message's stored author is the sender
name repaired by the Latin-1 re-encode / UTF-8 decode round trip, but a
Discord message's stored author is the raw `author.name`, with no UTF-16
surrogate repair (that repair is applied only to the metadata nicknames,
line 216). -/
theorem claim_C5 (localOff : Int) (m : MsgObj) :
    (∀ msg, processMessage (some "facebook") localOff m = .ok (some msg) →
      ∃ sn, m.sender_name = some sn ∧ latin1Utf8Fix sn = some msg.author) ∧
    (∀ msg, processMessage (some "discord") localOff m = .ok (some msg) →
      m.author_name = some msg.author) := by
  constructor
  · intro msg h
    rcases (processMessage_ok_inv h).2.2 with
      ⟨_, _, ms, sn, _, hsn, hfix, _⟩ | ⟨hd, _⟩
    · exact ⟨sn, hsn, hfix⟩
    · exact absurd (Option.some.inj hd) (by decide)
  · intro msg h
    rcases (processMessage_ok_inv h).2.2 with ⟨hf, _⟩ | ⟨_, _, han, _⟩
    · exact absurd (Option.some.inj hf) (by decide)
    · exact han

theorem claim_C5_witness :
    ∃ sn, fbTextMsg1.sender_name = some sn ∧
      latin1Utf8Fix sn =
        some (Message.author ⟨"Thu Jan  1 00:00:00 1970", "text", "hi",
          [97], "facebook"⟩) :=
  (claim_C5 0 fbTextMsg1).1 _ rfl

/-- Claim C6, counterexample: one participant `"A"` with a single video
message.  The claim says the length-sample list holds only text-message
lengths (so `[]` here), but line 85 appends `len(content)` for every
message, so the recorded list is `[0]`. -/
theorem claim_C6_cex :
    analyze_message_length [[65]] [] [⟨"t", "video", "", [65], "facebook"⟩] =
      .ok ([([65], 1)], [([65], [0])]) ∧
    ([⟨"t", "video", "", [65], "facebook"⟩].filter
      (fun mm : Message => mm.message_type == "text")).map (·.content.length) =
      [] ∧
    ([0] : List Nat) ≠ [] :=
  ⟨rfl, rfl, by decide⟩

/-- Claim C6 (amended): after aggregation the per-participant length-sample
list is the list of content lengths of ALL of that participant's messages
in order — non-text messages have empty content and so contribute a
0-length sample, rather than no sample. -/
theorem claim_C6 (fb dis : List (List Nat)) (msgs : List Message)
    (h : ∀ m ∈ msgs, m.author ∈ fb ++ dis) :
    ∃ counts lengths,
      analyze_message_length fb dis msgs = .ok (counts, lengths) ∧
      ∀ p ∈ fb ++ dis, alookup lengths p =
        some ((msgs.filter (fun mm => mm.author == p)).map (·.content.length)) := by
  have hsome : ∀ m ∈ msgs, (alookup (initLengths (fb ++ dis)) m.author).isSome := by
    intro m hm
    rw [alookup_initLengths, if_pos (h m hm)]
    rfl
  obtain ⟨c, l', hok, hlook⟩ := analyzeGo_ok hsome
  refine ⟨c, l', hok, fun p hp => ?_⟩
  have := hlook p [] (by rw [alookup_initLengths, if_pos hp])
  simpa using this

theorem claim_C6_witness :
    ∃ counts lengths,
      analyze_message_length [[65]] []
        [⟨"t", "photo", "", [65], "facebook"⟩] = .ok (counts, lengths) ∧
      ∀ p ∈ [[65]] ++ ([] : List (List Nat)), alookup lengths p =
        some (([⟨"t", "photo", "", [65], "facebook"⟩].filter
          (fun mm : Message => mm.author == p)).map (·.content.length)) :=
  claim_C6 [[65]] [] _ (by decide)

/-- Claim C7: a present `content` field wins classification before any
other payload check, so a message carrying both `content` and `videos`
always classifies — and is stored — as `text`, never `video`. -/
theorem claim_C7 (app : Option String) (localOff : Int) (m : MsgObj)
    (c : List Nat) (hc : m.content = some c) (_hv : m.videos = true) :
    (∀ ty ct, classifyMessage app m = .ok (some (ty, ct)) →
      ty = "text" ∧ ty ≠ "video") ∧
    (∀ msg, processMessage app localOff m = .ok (some msg) →
      msg.message_type = "text" ∧ msg.message_type ≠ "video") := by
  have hty := @classify_content_text app m c hc
  constructor
  · intro ty ct hcl
    have := hty ty ct hcl
    exact ⟨this, by rw [this]; decide⟩
  · intro msg hpm
    have hcl := (processMessage_ok_inv hpm).1
    have := hty _ _ hcl
    exact ⟨this, by rw [this]; decide⟩

theorem claim_C7_witness :
    (Message.message_type ⟨"Thu Jan  1 00:00:00 1970", "text", "hi", [97],
      "facebook"⟩) = "text" ∧
    (Message.message_type ⟨"Thu Jan  1 00:00:00 1970", "text", "hi", [97],
      "facebook"⟩) ≠ "video" :=
  (claim_C7 (some "facebook") 0
    ⟨some [104, 105], true, false, false, false, false, false, none,
      some 0, some [97], none, none⟩ [104, 105] rfl rfl).2 _ rfl

/-- Claim C8: the emoticon rewrite is token-exact — splitting on
whitespace, it maps exactly the tokens equal to a table entry and rejoins
with single spaces; in particular `"hi :) you"` becomes `"hi 🙂 you"`
while `"hi:)you"` is unchanged. -/
theorem claim_C8 :
    (∀ ts : List String,
      (∀ t ∈ ts, t.data ≠ [] ∧ ∀ c ∈ t.data, c.isWhitespace = false) →
      convert_symbols_to_emojis (pyJoinSp ts) =
        pyJoinSp (ts.map (fun t => (alookup convertable_emojis t).getD t))) ∧
    convert_symbols_to_emojis "hi :) you" = "hi 🙂 you" ∧
    convert_symbols_to_emojis "hi:)you" = "hi:)you" := by
  refine ⟨?_, rfl, rfl⟩
  intro ts h
  unfold convert_symbols_to_emojis pyJoinSp
  rw [data_mk]
  have hts : ∀ t ∈ ts.map (fun s : String => s.data),
      t ≠ [] ∧ ∀ c ∈ t, c.isWhitespace = false := by
    intro t ht
    obtain ⟨s, hs, rfl⟩ := List.mem_map.mp ht
    exact h s hs
  rw [pySplitWs_joinSp hts]
  simp only [List.map_map]
  apply congrArg String.mk
  apply congrArg joinSp
  apply List.map_congr_left
  intro s _
  simp only [Function.comp_apply, mk_data]

theorem claim_C8_witness :
    convert_symbols_to_emojis (pyJoinSp ["a", ":)"]) =
      pyJoinSp (["a", ":)"].map
        (fun t => (alookup convertable_emojis t).getD t)) :=
  claim_C8.1 ["a", ":)"] (by decide)

/-- Claim C9, counterexample: the sort key is applied to the FULL glob
path, so for a corpus in a directory named `inbox` every path is at least
20 characters, `"{0:0>20}"` pads nothing, and the order is plainly
lexicographic — ingestion processes `inbox/message_10.json` strictly
before `inbox/message_2.json`, the opposite of the claimed natural
order. -/
theorem claim_C9_cex :
    (sortFiles ((fileNames12.map (globPath "inbox")).map
        (fun n => (n, (⟨false, false, []⟩ : ExportFile))))).map Prod.fst =
      ["inbox/message_1.json", "inbox/message_10.json",
       "inbox/message_11.json", "inbox/message_12.json",
       "inbox/message_2.json", "inbox/message_3.json",
       "inbox/message_4.json", "inbox/message_5.json",
       "inbox/message_6.json", "inbox/message_7.json",
       "inbox/message_8.json", "inbox/message_9.json"] ∧
    ((sortFiles ((fileNames12.map (globPath "inbox")).map
        (fun n => (n, (⟨false, false, []⟩ : ExportFile))))).map
      Prod.fst).indexOf "inbox/message_10.json" <
      ((sortFiles ((fileNames12.map (globPath "inbox")).map
        (fun n => (n, (⟨false, false, []⟩ : ExportFile))))).map
      Prod.fst).indexOf "inbox/message_2.json" :=
  ⟨rfl, by decide⟩

/-- Claim C9 (amended): the natural numeric order holds only while the
20-character zero-pad of the key still engages on the full glob path.  For
the repository's corpus directory `kiki`, the single-digit paths (19
characters) receive one pad zero and `'0' < 'k'`, so any initial order of
`kiki/message_1.json` … `kiki/message_12.json` is processed numerically:
`message_1.json` strictly before `message_2.json`, which is strictly
before `message_10.json`.  For directory prefixes of five or more
characters every path reaches 20 characters and the order degenerates to
plain lexicographic (see the counterexample). -/
theorem claim_C9 (l : List (String × ExportFile))
    (h : (l.map Prod.fst).Perm (fileNames12.map (globPath "kiki"))) :
    (sortFiles l).map Prod.fst = fileNames12.map (globPath "kiki") ∧
    ((sortFiles l).map Prod.fst).indexOf (globPath "kiki" "message_1.json") <
      ((sortFiles l).map Prod.fst).indexOf (globPath "kiki" "message_2.json") ∧
    ((sortFiles l).map Prod.fst).indexOf (globPath "kiki" "message_2.json") <
      ((sortFiles l).map Prod.fst).indexOf (globPath "kiki" "message_10.json") := by
  have he := sortFiles_eq_of_perm h (by decide) (by decide)
  refine ⟨he, ?_, ?_⟩ <;> rw [he] <;> decide

theorem claim_C9_witness :
    (sortFiles ((fileNames12.map (globPath "kiki")).reverse.map
      (fun n => (n, (⟨false, false, []⟩ : ExportFile))))).map Prod.fst =
      fileNames12.map (globPath "kiki") :=
  (claim_C9 _ (by
    have hm : ((fileNames12.map (globPath "kiki")).reverse.map
        (fun n => (n, (⟨false, false, []⟩ : ExportFile)))).map Prod.fst =
        (fileNames12.map (globPath "kiki")).reverse := by
      rw [List.map_map]
      rfl
    rw [hm]
    exact List.reverse_perm _)).1

/-- Claim C10: the length-sample table is pre-created exactly for the
participants recovered from metadata, and aggregation of a corpus holding
any message whose author is absent from both participant lists fails with
a key-lookup error rather than recording the sample. -/
theorem claim_C10 (fb dis : List (List Nat)) (msgs : List Message)
    (hbad : ∃ m ∈ msgs, m.author ∉ fb ++ dis) :
    (∀ p, (alookup (initLengths (fb ++ dis)) p).isSome ↔ p ∈ fb ++ dis) ∧
    ∃ e, analyze_message_length fb dis msgs = .error e := by
  constructor
  · intro p
    rw [alookup_initLengths]
    by_cases hp : p ∈ fb ++ dis <;> simp [hp]
  · obtain ⟨m, hm, hnot⟩ := hbad
    exact analyzeGo_error ⟨m, hm, by rw [alookup_initLengths, if_neg hnot]⟩

theorem claim_C10_witness :
    ∃ e, analyze_message_length [[65]] []
      [⟨"t", "video", "", [66], "facebook"⟩] = .error e :=
  (claim_C10 [[65]] [] [⟨"t", "video", "", [66], "facebook"⟩]
    ⟨⟨"t", "video", "", [66], "facebook"⟩, by decide, by decide⟩).2

end MsgAnalyser
